import Mathlib

/-!
# Verification of the Calendar selection / event-layout core

A shallow embedding of the selection and event-layout subsystem of the
Calendar repository, together with proofs of its specified properties.

Modelling conventions:
* `chrono::NaiveDate` is modelled as `Int` (a day number); `NaiveDate`
  is totally ordered and supports day-difference arithmetic, both of
  which the `Int` model preserves.
* `chrono::NaiveTime` is modelled as `Nat` (seconds since midnight);
  `NaiveTime::from_hms(h, m, s)` becomes `h * 3600 + m * 60 + s`,
  `t.hour()` becomes `t / 3600` and `t.minute()` becomes `t % 3600 / 60`.
* Rust `Option<T>` is `Option T`; `Option`'s derived ordering
  (`None < Some _`) is spelled out in explicit comparison functions.
* Rust struct methods that mutate `&mut self` become functions from the
  state to the new state (paired with the returned value where there is
  one).
* The field name `end` from the source is a reserved word in Lean and is
  rendered as `stop` throughout.
-/

namespace Calendar

/-! ## Date/time model: dates are `Int` day numbers, times are `Nat`
seconds since midnight. -/

/-- Model of `NaiveTime::from_hms_opt(h, m, s).unwrap()` on in-range arguments. -/
def hms (h m s : Nat) : Nat := h * 3600 + m * 60 + s

/-- Model of `t.hour() * 60 + t.minute()`: minutes from midnight of a time. -/
def minutesOfDay (t : Nat) : Nat := t / 3600 * 60 + t % 3600 / 60

/-- The derived `Option<NaiveTime>` strict order: `None` is less than
any `Some`, two `Some`s compare by the contained time. -/
def optTimeLt : Option Nat → Option Nat → Bool
  | none, none => false
  | none, some _ => true
  | some _, none => false
  | some a, some b => a < b

/-- The derived `Option<NaiveTime>` non-strict order. -/
def optTimeLe : Option Nat → Option Nat → Bool
  | none, _ => true
  | some _, none => false
  | some a, some b => a ≤ b

/-! ## `src/selection/point.rs` -/

/-- A point in time that may or may not include a specific time
(`SelectionPoint`). -/
structure SelectionPoint where
  date : Int
  time : Option Nat
deriving DecidableEq, Repr

namespace SelectionPoint

/-- Source `SelectionPoint::date_only` -/
def date_only (date : Int) : SelectionPoint := ⟨date, none⟩

/-- Source `SelectionPoint::with_time` -/
def with_time (date : Int) (time : Nat) : SelectionPoint := ⟨date, some time⟩

/-- Source `SelectionPoint::is_date_only` -/
def is_date_only (p : SelectionPoint) : Bool := p.time.isNone

end SelectionPoint

/-- The key order used by `SelectionRange::new`: the derived lexicographic
order on the tuple `(date, time)`, with `None` time sorting below `Some`. -/
def pointLe (p q : SelectionPoint) : Bool :=
  decide (p.date < q.date) || (decide (p.date = q.date) && optTimeLe p.time q.time)

/-! ## `src/selection/range.rs` -/

/-- A normalized selection range with start <= end (`SelectionRange`).
The source field `end` is rendered `stop`. -/
structure SelectionRange where
  start : SelectionPoint
  stop : SelectionPoint
deriving DecidableEq, Repr

namespace SelectionRange

/-- Source `SelectionRange::new`: order the pair by `(date, time)`. -/
def new (point1 point2 : SelectionPoint) : SelectionRange :=
  if pointLe point1 point2 then ⟨point1, point2⟩ else ⟨point2, point1⟩

/-- Source `SelectionRange::from_dates` -/
def from_dates (date1 date2 : Int) : SelectionRange :=
  new (SelectionPoint.date_only date1) (SelectionPoint.date_only date2)

/-- Source `SelectionRange::contains_date` (inclusive on both ends). -/
def contains_date (r : SelectionRange) (date : Int) : Bool :=
  decide (r.start.date ≤ date) && decide (date ≤ r.stop.date)

/-- Source `SelectionRange::is_multi_day` -/
def is_multi_day (r : SelectionRange) : Bool :=
  decide (r.start.date ≠ r.stop.date)

/-- Source `SelectionRange::day_count` -/
def day_count (r : SelectionRange) : Int := r.stop.date - r.start.date + 1

end SelectionRange

/-! ## `src/selection/state.rs` -/

/-- Drag-selection tracker (`SelectionState`). The source field `end`
is rendered `stop`. -/
structure SelectionState where
  start : Option SelectionPoint
  stop : Option SelectionPoint
  is_active : Bool
deriving DecidableEq, Repr

namespace SelectionState

/-- Source `SelectionState::new` / `Default::default` -/
def new : SelectionState := ⟨none, none, false⟩

/-- Source `SelectionState::start_at` -/
def start_at (_s : SelectionState) (point : SelectionPoint) : SelectionState :=
  ⟨some point, some point, true⟩

/-- Source `SelectionState::start` (named `startOn` because the structure
already has a field `start`). -/
def startOn (s : SelectionState) (date : Int) : SelectionState :=
  s.start_at (SelectionPoint.date_only date)

/-- Source `SelectionState::start_with_time` -/
def start_with_time (s : SelectionState) (date : Int) (time : Nat) : SelectionState :=
  s.start_at (SelectionPoint.with_time date time)

/-- Source `SelectionState::update_to` -/
def update_to (s : SelectionState) (point : SelectionPoint) : SelectionState :=
  if s.is_active then { s with stop := some point } else s

/-- Source `SelectionState::update` -/
def update (s : SelectionState) (date : Int) : SelectionState :=
  s.update_to (SelectionPoint.date_only date)

/-- Source `SelectionState::update_with_time` -/
def update_with_time (s : SelectionState) (date : Int) (time : Nat) : SelectionState :=
  s.update_to (SelectionPoint.with_time date time)

/-- Source `SelectionState::reset` -/
def reset : SelectionState := ⟨none, none, false⟩

/-- Source `SelectionState::get_range` -/
def get_range (s : SelectionState) : Option SelectionRange :=
  match s.start, s.stop with
  | some start, some stop => some (SelectionRange.new start stop)
  | _, _ => none

/-- Source `SelectionState::end` (returned range paired with the new state;
`end` is a reserved word in Lean). -/
def endSelection (s : SelectionState) : Option SelectionRange × SelectionState :=
  if !s.is_active then (none, s)
  else (s.get_range, reset)

/-- Source `SelectionState::cancel` -/
def cancel (_s : SelectionState) : SelectionState := reset

/-- Source `SelectionState::contains` -/
def contains (s : SelectionState) (date : Int) : Bool :=
  match s.get_range with
  | some r => r.contains_date date
  | none => false

/-- Source `SelectionState::contains_time`: whether the hour-long cell
`(date, hour)` overlaps the current selection. -/
def contains_time (s : SelectionState) (date : Int) (hour : Nat) : Bool :=
  match s.get_range with
  | none => false
  | some range =>
    let cell_start := hms hour 0 0
    let cell_end := hms hour 59 59
    let sel_start_time := range.start.time.getD (hms 0 0 0)
    let sel_end_time := range.stop.time.getD (hms 23 59 59)
    let sel_start_date := range.start.date
    let sel_end_date := range.stop.date
    if date < sel_start_date ∨ sel_end_date < date then false
    else if sel_start_date = sel_end_date ∧ date = sel_start_date then
      -- Cell overlaps if: cell_end >= sel_start AND cell_start <= sel_end
      decide (sel_start_time ≤ cell_end) && decide (cell_start ≤ sel_end_time)
    else if date = sel_start_date then
      -- First day: include cells from start time onwards
      decide (sel_start_time ≤ cell_end)
    else if date = sel_end_date then
      -- Last day: include cells up to end time
      decide (cell_start ≤ sel_end_time)
    else
      -- Middle days: all cells are selected
      true

end SelectionState

/-! ## `src/views/week/utils.rs` -/

/-- The slice of `DisplayEvent` consumed by the week-view layout: the
layout code reads only the optional start/end times (and treats all
other fields as opaque payload, represented by `uid`). -/
structure DisplayEvent where
  uid : Nat
  all_day : Bool
  start_time : Option Nat
  end_time : Option Nat
deriving DecidableEq, Repr

instance : Inhabited DisplayEvent := ⟨⟨0, false, none, none⟩⟩

/-- An event with its calculated column position (`PositionedEvent`). -/
structure PositionedEvent where
  event : DisplayEvent
  column : Nat
  total_columns : Nat
deriving DecidableEq, Repr

/-- Source `event_time_range`: the time range of an event in minutes from
midnight; a missing end defaults to start+60 and a non-positive
duration is clamped to 30 minutes. -/
def event_time_range (event : DisplayEvent) : Nat × Nat :=
  let start := (event.start_time.map minutesOfDay).getD 0
  let endMin := (event.end_time.map minutesOfDay).getD (start + 60)
  let endMin := if endMin ≤ start then start + 30 else endMin
  (start, endMin)

/-- Source `events_overlap`: two events overlap iff all four times are present
and one starts before the other ends (open intervals). -/
def events_overlap (e1 e2 : DisplayEvent) : Bool :=
  match e1.start_time, e1.end_time, e2.start_time, e2.end_time with
  | some start1, some end1, some start2, some end2 =>
      decide (start1 < end2) && decide (start2 < end1)
  | _, _, _, _ => false

/-- The comparator passed to `sort_by` in `calculate_event_columns`:
lexicographic on `(start_time, end_time)` with the derived `Option`
order (`None < Some`). -/
def evLe (a b : DisplayEvent) : Bool :=
  optTimeLt a.start_time b.start_time ||
    (decide (a.start_time = b.start_time) && optTimeLe a.end_time b.end_time)

/-- Comparator `evLe` as a relation, for use with `List.insertionSort`. -/
def evLeP (a b : DisplayEvent) : Prop := evLe a b = true

instance : DecidableRel evLeP := fun _ _ => inferInstanceAs (Decidable (_ = true))

/-- The substituted start time used by the column-assignment loop:
`event.start_time.unwrap_or(00:00:00)`. -/
def substStart (ev : DisplayEvent) : Nat := ev.start_time.getD (hms 0 0 0)

/-- The substituted end time used by the column-assignment loop:
`event.end_time.unwrap_or(23:59:59)`. -/
def substEnd (ev : DisplayEvent) : Nat := ev.end_time.getD (hms 23 59 59)

/-- Index of the first column whose recorded end time is `≤ start`
(the `for (col_idx, col_end) in column_ends.iter_mut()` scan). -/
def firstFreeCol (start : Nat) : List Nat → Option Nat
  | [] => none
  | colEnd :: rest =>
      if colEnd ≤ start then some 0 else (firstFreeCol start rest).map (· + 1)

/-- The first pass of `calculate_event_columns`: walk the sorted events,
assigning each the first free column (updating that column's end time)
or appending a new column. `total_columns` is left 0 for the second
pass. -/
def placeEvents : List DisplayEvent → List Nat → List PositionedEvent
  | [], _ => []
  | ev :: rest, column_ends =>
      match firstFreeCol (substStart ev) column_ends with
      | some i => ⟨ev, i, 0⟩ :: placeEvents rest (column_ends.set i (substEnd ev))
      | none =>
          ⟨ev, column_ends.length, 0⟩ :: placeEvents rest (column_ends ++ [substEnd ev])

/-- The inner loop of the second pass: fold `max` of the columns of all
events at index `j ≠ i` that overlap the event `pe`, starting from the
accumulator (`max_col` in the source). -/
def overlapMaxAux (pe : DisplayEvent) (i : Nat) : Nat → List PositionedEvent → Nat → Nat
  | _, [], acc => acc
  | j, q :: rest, acc =>
      overlapMaxAux pe i (j + 1) rest
        (if i ≠ j ∧ events_overlap pe q.event = true then max acc q.column else acc)

/-- The second pass of `calculate_event_columns`: set each event's
`total_columns` to one more than the maximum column in its overlap
group. `positioned` is the full first-pass output; `j` the index of the
head of the remaining list. -/
def secondPass (positioned : List PositionedEvent) : Nat → List PositionedEvent → List PositionedEvent
  | _, [] => []
  | j, p :: rest =>
      { p with total_columns := overlapMaxAux p.event j 0 positioned p.column + 1 }
        :: secondPass positioned (j + 1) rest

/-- Source `calculate_event_columns`. Rust's `sort_by` is a stable sort; it is
modelled by `List.insertionSort` (also stable) with the same
comparator. -/
def calculate_event_columns (events : List DisplayEvent) : List PositionedEvent :=
  if events.isEmpty then []
  else
    let sorted := List.insertionSort evLeP events
    let positioned := placeEvents sorted []
    secondPass positioned 0 positioned

/-- A variant of the hour-by-hour containment predicate stated directly
from the specification of `contains_time`, phrased over the normalized
range: reject dates outside `[start.date, end.date]`; single-day
selections use the overlap test `cell_end >= sel_start && cell_start <=
sel_end`; multi-day selections bound only the first and last day. -/
def contains_time_stated (r : SelectionRange) (date : Int) (hour : Nat) : Bool :=
  let cell_start := hms hour 0 0
  let cell_end := hms hour 59 59
  let sel_start_time := r.start.time.getD (hms 0 0 0)
  let sel_end_time := r.stop.time.getD (hms 23 59 59)
  if date < r.start.date ∨ r.stop.date < date then false
  else if r.start.date = r.stop.date then
    decide (sel_start_time ≤ cell_end) && decide (cell_start ≤ sel_end_time)
  else if date = r.start.date then decide (sel_start_time ≤ cell_end)
  else if date = r.stop.date then decide (cell_start ≤ sel_end_time)
  else true

/-- The first pass of the column layout as the specification describes
it: identical scan, but a missing end time is substituted by start+60
minutes and a non-positive duration is clamped to start+30 minutes.
Stated from the spec's words, to be compared with `placeEvents`. -/
def placeEventsStated : List DisplayEvent → List Nat → List PositionedEvent
  | [], _ => []
  | ev :: rest, column_ends =>
      let start := ev.start_time.getD (hms 0 0 0)
      let stop0 := ev.end_time.getD (start + 3600)
      let stop := if stop0 ≤ start then start + 1800 else stop0
      match firstFreeCol start column_ends with
      | some i => ⟨ev, i, 0⟩ :: placeEventsStated rest (column_ends.set i stop)
      | none => ⟨ev, column_ends.length, 0⟩ :: placeEventsStated rest (column_ends ++ [stop])

/-- Variant of `calculate_event_columns` under the substitution the claim
describes (missing end time treated as start+60 minutes, non-positive
duration clamped to 30 minutes). Stated from the spec's words, to be
compared with `calculate_event_columns`. -/
def calculate_event_columns_stated (events : List DisplayEvent) : List PositionedEvent :=
  if events.isEmpty then []
  else
    let sorted := List.insertionSort evLeP events
    let positioned := placeEventsStated sorted []
    secondPass positioned 0 positioned

/-! ## `src/selection/drag.rs` (absent from the sources)

The module `drag` is declared in `src/selection/mod.rs` and exercised by
its tests, but the file itself is not among the provided sources, so
`EventDragState` is modelled from the spec. -/

/-- Modelled from the spec: the missing `src/selection/drag.rs` declares
`EventDragState`, which captures an event's identity and origin on
`start`, moves only the target fields on `update`, and on `end`
deactivates, returning `None` when the target equals the origin and the
move descriptor otherwise. -/
structure EventDragState where
  event_uid : Option String
  original_date : Option Int
  original_time : Option Nat
  target_date : Option Int
  target_time : Option Nat
  summary : Option String
  color : Option String
  is_active : Bool
deriving DecidableEq, Repr

namespace EventDragState

/-- Modelled from the spec: `EventDragState::new` — the empty, inactive
state. -/
def new : EventDragState := ⟨none, none, none, none, none, none, none, false⟩

/-- Modelled from the spec: `EventDragState::start(uid, date, summary,
color)` captures identity and origin and initializes the target equal to
the origin. -/
def startOn (_s : EventDragState) (uid : String) (date : Int)
    (summary color : String) : EventDragState :=
  ⟨some uid, some date, none, some date, none, some summary, some color, true⟩

/-- Modelled from the spec: `EventDragState::start_with_time`. -/
def start_with_time (_s : EventDragState) (uid : String) (date : Int) (time : Nat)
    (summary color : String) : EventDragState :=
  ⟨some uid, some date, some time, some date, some time, some summary, some color, true⟩

/-- Modelled from the spec: `EventDragState::update` moves only the
target date while active; it is a no-op while inactive. -/
def update (s : EventDragState) (date : Int) : EventDragState :=
  if s.is_active then { s with target_date := some date } else s

/-- Modelled from the spec: `EventDragState::update_with_time` moves
only the target fields while active. -/
def update_with_time (s : EventDragState) (date : Int) (time : Nat) : EventDragState :=
  if s.is_active then { s with target_date := some date, target_time := some time } else s

/-- Modelled from the spec: `EventDragState::end` deactivates and
returns `None` when the target date equals the original date (no actual
move), otherwise `Some((uid, original_date, target_date))`. While
inactive it is a no-op returning `None`. -/
def endDrag (s : EventDragState) : Option (String × Int × Int) × EventDragState :=
  if !s.is_active then (none, s)
  else
    let result :=
      match s.event_uid, s.original_date, s.target_date with
      | some uid, some orig, some tgt =>
          if tgt = orig then none else some (uid, orig, tgt)
      | _, _, _ => none
    (result, { s with is_active := false })

/-- Modelled from the spec: `EventDragState::get_offset` — the signed
day delta `target_date - original_date` while active. -/
def get_offset (s : EventDragState) : Option Int :=
  if s.is_active then
    match s.original_date, s.target_date with
    | some orig, some tgt => some (tgt - orig)
    | _, _ => none
  else none

/-- Modelled from the spec: `EventDragState::cancel` deactivates and
clears identity and display fields without producing a result. -/
def cancel (_s : EventDragState) : EventDragState := new

end EventDragState

/-! ## `src/views/month/overlay.rs` (absent from the sources)

`compute_week_event_slots` is imported and called by
`src/views/month/mod.rs`, but the `overlay` module file is not among the
provided sources, so the slot layout is modelled from the spec. -/

/-- Modelled from the spec: a per-week date event as consumed by the
missing `compute_week_event_slots` — an event key with the inclusive
date range the event spans within the week. -/
structure DateEvent where
  key : Nat
  start_date : Int
  end_date : Int
deriving DecidableEq, Repr

/-- Modelled from the spec: two inclusive date ranges overlap. -/
def dateRangesOverlap (e f : DateEvent) : Bool :=
  decide (e.start_date ≤ f.end_date) && decide (f.start_date ≤ e.end_date)

/-- Modelled from the spec: a slot can take an event iff the event's
date range overlaps none of the ranges already assigned to that slot. -/
def slotFree (e : DateEvent) (occupants : List DateEvent) : Bool :=
  occupants.all fun f => !dateRangesOverlap e f

/-- Modelled from the spec: index of the first slot that can take the
event (first-fit by date-range overlap). -/
def firstFreeSlot (e : DateEvent) : List (List DateEvent) → Option Nat
  | [] => none
  | occupants :: rest =>
      if slotFree e occupants then some 0 else (firstFreeSlot e rest).map (· + 1)

/-- Modelled from the spec: first-fit slot assignment — each event gets
the first slot whose occupants its date range does not overlap, or a
fresh slot; the single assigned index is the event's stable slot for
every day it spans. -/
def assignSlots : List DateEvent → List (List DateEvent) → List (DateEvent × Nat)
  | [], _ => []
  | e :: rest, slots =>
      match firstFreeSlot e slots with
      | some i => (e, i) :: assignSlots rest (slots.set i (e :: slots.getD i []))
      | none => (e, slots.length) :: assignSlots rest (slots ++ [[e]])

/-- Modelled from the spec: the result of `compute_week_event_slots` —
the event-key → slot map and, for each day, the set of slot indices
occupied on that day. -/
structure WeekEventSlotInfo where
  slots : List (Nat × Nat)
  day_occupied_slots : Int → List Nat

/-- Modelled from the spec: the missing
`compute_week_event_slots(week, events_by_date)` — assign slots
first-fit by date-range overlap, and record per day exactly the slot
indices of the events whose range covers that day. -/
def compute_week_event_slots (events : List DateEvent) : WeekEventSlotInfo :=
  let assignments := assignSlots events []
  { slots := assignments.map fun es => (es.1.key, es.2)
    day_occupied_slots := fun day =>
      (assignments.filter fun es =>
        decide (es.1.start_date ≤ day) && decide (day ≤ es.1.end_date)).map (·.2) }

/-! ## Ordering helper lemmas -/

/-- Rank of an optional time: `none` below every `some`. -/
def optKey : Option Nat → Nat
  | none => 0
  | some t => t + 1

theorem optKey_inj {a b : Option Nat} (h : optKey a = optKey b) : a = b := by
  cases a <;> cases b
  · rfl
  · exact absurd h (by simp only [optKey]; omega)
  · exact absurd h (by simp only [optKey]; omega)
  · simp only [optKey] at h
    simp [Nat.succ_injective h]

theorem optTimeLt_eq (a b : Option Nat) :
    optTimeLt a b = decide (optKey a < optKey b) := by
  cases a <;> cases b <;> simp [optTimeLt, optKey]

theorem optTimeLe_eq (a b : Option Nat) :
    optTimeLe a b = decide (optKey a ≤ optKey b) := by
  cases a <;> cases b <;> simp [optTimeLe, optKey]

theorem evLe_iff (a b : DisplayEvent) :
    evLe a b = true ↔
      (optKey a.start_time < optKey b.start_time ∨
        (optKey a.start_time = optKey b.start_time ∧
          optKey a.end_time ≤ optKey b.end_time)) := by
  unfold evLe
  rw [optTimeLt_eq, optTimeLe_eq]
  simp only [Bool.or_eq_true, Bool.and_eq_true, decide_eq_true_eq]
  constructor
  · rintro (h | ⟨heq, hle⟩)
    · exact Or.inl h
    · exact Or.inr ⟨by rw [heq], hle⟩
  · rintro (h | ⟨heq, hle⟩)
    · exact Or.inl h
    · exact Or.inr ⟨optKey_inj heq, hle⟩

instance : IsTrans DisplayEvent evLeP :=
  ⟨fun a b c hab hbc => by
    have h1 := (evLe_iff a b).mp hab
    have h2 := (evLe_iff b c).mp hbc
    exact (evLe_iff a c).mpr (by omega)⟩

instance : IsTotal DisplayEvent evLeP :=
  ⟨fun a b => by
    rcases Nat.lt_trichotomy (optKey a.start_time) (optKey b.start_time) with hlt | heq | hgt
    · exact Or.inl ((evLe_iff a b).mpr (Or.inl hlt))
    · rcases Nat.le_total (optKey a.end_time) (optKey b.end_time) with hle | hle
      · exact Or.inl ((evLe_iff a b).mpr (Or.inr ⟨heq, hle⟩))
      · exact Or.inr ((evLe_iff b a).mpr (Or.inr ⟨heq.symm, hle⟩))
    · exact Or.inr ((evLe_iff b a).mpr (Or.inl hgt))⟩

theorem pointLe_iff (p q : SelectionPoint) :
    pointLe p q = true ↔
      (p.date < q.date ∨ (p.date = q.date ∧ optKey p.time ≤ optKey q.time)) := by
  unfold pointLe
  rw [optTimeLe_eq]
  simp

theorem pointLe_total (p q : SelectionPoint) :
    pointLe p q = true ∨ pointLe q p = true := by
  rcases lt_trichotomy p.date q.date with hlt | heq | hgt
  · exact Or.inl ((pointLe_iff p q).mpr (Or.inl hlt))
  · rcases Nat.le_total (optKey p.time) (optKey q.time) with hle | hle
    · exact Or.inl ((pointLe_iff p q).mpr (Or.inr ⟨heq, hle⟩))
    · exact Or.inr ((pointLe_iff q p).mpr (Or.inr ⟨heq.symm, hle⟩))
  · exact Or.inr ((pointLe_iff q p).mpr (Or.inl hgt))

theorem pointLe_antisymm {p q : SelectionPoint}
    (h1 : pointLe p q = true) (h2 : pointLe q p = true) : p = q := by
  have h1' := (pointLe_iff p q).mp h1
  have h2' := (pointLe_iff q p).mp h2
  have hd : p.date = q.date := by
    rcases h1' with h | ⟨h, _⟩ <;> rcases h2' with h' | ⟨h', _⟩ <;> omega
  have ht : p.time = q.time := by
    apply optKey_inj
    rcases h1' with h | ⟨he, h⟩ <;> rcases h2' with h' | ⟨he', h'⟩ <;> omega
  obtain ⟨pd, pt⟩ := p
  obtain ⟨qd, qt⟩ := q
  have hd' : pd = qd := hd
  have ht' : pt = qt := ht
  rw [hd', ht']

/-! ## C4: `SelectionRange::new` normalizes and is commutative -/

/-- C4: For every pair of selection points, `SelectionRange::new` yields
a range with `start <= end` under the lexicographic `(date, time)` order
in which a `none` time sorts below every `some`, and the constructor is
commutative. -/
theorem selection_range_new_normalized_comm (p q : SelectionPoint) :
    pointLe (SelectionRange.new p q).start (SelectionRange.new p q).stop = true ∧
      SelectionRange.new p q = SelectionRange.new q p := by
  unfold SelectionRange.new
  rcases h1 : pointLe p q <;> rcases h2 : pointLe q p <;> simp
  · rcases pointLe_total p q with h | h
    · exact absurd h (by simp [h1])
    · exact absurd h (by simp [h2])
  · simp [h2]
  · simp [h1]
  · have := pointLe_antisymm h1 h2
    subst this
    simp [h1]

/-! ## C7: `update` / `update_with_time` frame conditions -/

/-- C7: `update(d)` and `update_with_time(d, t)` leave the state
entirely unchanged when `is_active` is false; when it is true they
replace only the end point, leaving the start point and the `is_active`
flag unchanged. -/
theorem selection_update_frame (s : SelectionState) (d : Int) (t : Nat) :
    (s.is_active = false → s.update d = s ∧ s.update_with_time d t = s) ∧
    (s.is_active = true →
      (s.update d).start = s.start ∧ (s.update d).is_active = true ∧
      (s.update d).stop = some (SelectionPoint.date_only d) ∧
      (s.update_with_time d t).start = s.start ∧
      (s.update_with_time d t).is_active = true ∧
      (s.update_with_time d t).stop = some (SelectionPoint.with_time d t)) := by
  unfold SelectionState.update SelectionState.update_with_time SelectionState.update_to
  constructor <;> intro h <;> simp [h]

/-- Witness for C7 at concrete states: an inactive update is the
identity, and an active update keeps the start point. -/
theorem selection_update_frame_witness :
    SelectionState.new.update 7 = SelectionState.new ∧
      ((SelectionState.new.startOn 5).update 7).start =
        (SelectionState.new.startOn 5).start :=
  ⟨((selection_update_frame SelectionState.new 7 0).1 rfl).1,
    (((selection_update_frame (SelectionState.new.startOn 5) 7 0).2 rfl).1)⟩

/-! ## C8: `end()` semantics -/

/-- C8: `end()` on an inactive state returns `none` and leaves the state
unchanged; on an active state with both points set it returns the
normalized range and resets the state, so an immediately following
second `end()` returns `none` (the last conjunct holds for every
state). -/
theorem selection_end_spec (s : SelectionState) (p q : SelectionPoint) :
    (s.is_active = false → s.endSelection = (none, s)) ∧
    (s.is_active = true → s.start = some p → s.stop = some q →
      s.endSelection = (some (SelectionRange.new p q), SelectionState.reset)) ∧
    (s.endSelection.2.endSelection.1 = none) := by
  refine ⟨fun h => ?_, fun h hp hq => ?_, ?_⟩
  · simp [SelectionState.endSelection, h]
  · simp [SelectionState.endSelection, SelectionState.get_range, h, hp, hq]
  · unfold SelectionState.endSelection
    rcases h : s.is_active <;> simp [h, SelectionState.reset]

/-- Witness for C8: concrete inactive and active states, and the second
`end()` after an `end()`. -/
theorem selection_end_spec_witness :
    SelectionState.new.endSelection = (none, SelectionState.new) ∧
      (SelectionState.mk (some (SelectionPoint.date_only 3))
          (some (SelectionPoint.date_only 5)) true).endSelection =
        (some (SelectionRange.new (SelectionPoint.date_only 3)
          (SelectionPoint.date_only 5)), SelectionState.reset) ∧
      ((SelectionState.new.startOn 3).endSelection.2.endSelection.1 = none) :=
  ⟨(selection_end_spec SelectionState.new (SelectionPoint.date_only 0)
      (SelectionPoint.date_only 0)).1 rfl,
    (selection_end_spec _ (SelectionPoint.date_only 3)
      (SelectionPoint.date_only 5)).2.1 rfl rfl rfl,
    (selection_end_spec (SelectionState.new.startOn 3) (SelectionPoint.date_only 0)
      (SelectionPoint.date_only 0)).2.2⟩

/-! ## C6: `EventDragState::end` (modelled from the spec) -/

theorem drag_foldl_update_fields (ds : List Int) (s : EventDragState)
    (h : s.is_active = true) :
    (ds.foldl EventDragState.update s).is_active = true ∧
      (ds.foldl EventDragState.update s).event_uid = s.event_uid ∧
      (ds.foldl EventDragState.update s).original_date = s.original_date ∧
      (ds.foldl EventDragState.update s).target_date =
        (match ds.getLast? with
          | some x => some x
          | none => s.target_date) := by
  induction ds generalizing s with
  | nil => exact ⟨h, rfl, rfl, rfl⟩
  | cons x rest ih =>
      have hupd : s.update x = { s with target_date := some x } := by
        simp [EventDragState.update, h]
      rcases ih (s.update x) (by rw [hupd]; exact h) with ⟨h1, h2, h3, h4⟩
      have hfold : List.foldl EventDragState.update s (x :: rest)
          = List.foldl EventDragState.update (s.update x) rest := rfl
      refine ⟨by rw [hfold]; exact h1, ?_, ?_, ?_⟩
      · rw [hfold, h2, hupd]
      · rw [hfold, h3, hupd]
      · rw [hfold, h4]
        cases rest with
        | nil => simp [hupd]
        | cons y t =>
            cases hgl : (y :: t).getLast? with
            | none => simp [List.getLast?_eq_none_iff] at hgl
            | some z => simp [List.getLast?_cons_cons, hgl]

/-- C6: a drag begun with `start(uid, d, ...)`, possibly followed by
`update` calls, is deactivated by `end()`, which returns `none` exactly
when the current target date equals the original date and the move
descriptor `(uid, d, target)` otherwise; with no `update` at all it
returns `none`. -/
theorem event_drag_end_spec (uid : String) (d : Int) (sm c : String) (ds : List Int) :
    ((ds.foldl EventDragState.update (EventDragState.new.startOn uid d sm c)).endDrag.2.is_active
        = false) ∧
    (∀ tgt,
      (ds.foldl EventDragState.update (EventDragState.new.startOn uid d sm c)).target_date
          = some tgt →
      (ds.foldl EventDragState.update (EventDragState.new.startOn uid d sm c)).endDrag.1
          = if tgt = d then none else some (uid, d, tgt)) ∧
    (ds = [] →
      (ds.foldl EventDragState.update (EventDragState.new.startOn uid d sm c)).endDrag.1
          = none) := by
  rcases drag_foldl_update_fields ds (EventDragState.new.startOn uid d sm c) rfl with
    ⟨h1, h2, h3, _⟩
  have hu : (ds.foldl EventDragState.update (EventDragState.new.startOn uid d sm c)).event_uid
      = some uid := h2
  have ho : (ds.foldl EventDragState.update
      (EventDragState.new.startOn uid d sm c)).original_date = some d := h3
  refine ⟨?_, fun tgt htgt => ?_, fun hnil => ?_⟩
  · simp [EventDragState.endDrag, h1]
  · simp [EventDragState.endDrag, h1, hu, ho, htgt]
  · subst hnil
    simp [EventDragState.endDrag, EventDragState.startOn, EventDragState.new]

/-- Witness for C6: an updated drag reports the move, an un-updated drag
reports none. -/
theorem event_drag_end_spec_witness :
    ((EventDragState.new.startOn "e" 3 "s" "c").update 7).endDrag.1 = some ("e", 3, 7) ∧
      (EventDragState.new.startOn "e" 3 "s" "c").endDrag.1 = none := by
  constructor
  · have h := (event_drag_end_spec "e" 3 "s" "c" [7]).2.1 7 rfl
    simpa using h
  · exact (event_drag_end_spec "e" 3 "s" "c" []).2.2 rfl

/-! ## C1: `contains_time` agrees with its specification -/

/-- C1: for a state with both points set and an hour cell in `0..23`,
`contains_time` computes exactly the predicate the spec describes over
the normalized range: dates outside the range are rejected, a single-day
selection uses the two-sided cell-overlap test with `00:00:00` /
`23:59:59` defaults, and a multi-day selection bounds only the first and
last day. -/
theorem contains_time_correct (s : SelectionState) (p1 p2 : SelectionPoint)
    (date : Int) (hour : Nat) (h1 : s.start = some p1) (h2 : s.stop = some p2)
    (_hh : hour < 24) :
    s.contains_time date hour = contains_time_stated (SelectionRange.new p1 p2) date hour := by
  have hg : s.get_range = some (SelectionRange.new p1 p2) := by
    unfold SelectionState.get_range
    rw [h1, h2]
  unfold SelectionState.contains_time contains_time_stated
  rw [hg]
  set r := SelectionRange.new p1 p2 with hr
  by_cases hout : date < r.start.date ∨ r.stop.date < date
  · simp [hout]
  · by_cases heqd : r.start.date = r.stop.date
    · have hd : date = r.start.date := by omega
      simp [hout, heqd, hd]
    · have hcond : ¬(r.start.date = r.stop.date ∧ date = r.start.date) := by
        intro hc
        exact heqd hc.1
      simp [hout, heqd, hcond]

/-- Witness for C1: the spec's single-day example (09:00 → 14:00, hour
cell 14 is included) evaluated through the theorem. -/
theorem contains_time_correct_witness :
    (SelectionState.mk (some (SelectionPoint.with_time 10 (hms 9 0 0)))
        (some (SelectionPoint.with_time 10 (hms 14 0 0))) true).contains_time 10 14
      = contains_time_stated
          (SelectionRange.new (SelectionPoint.with_time 10 (hms 9 0 0))
            (SelectionPoint.with_time 10 (hms 14 0 0))) 10 14 ∧
      (SelectionState.mk (some (SelectionPoint.with_time 10 (hms 9 0 0)))
          (some (SelectionPoint.with_time 10 (hms 14 0 0))) true).contains_time 10 14 = true :=
  ⟨contains_time_correct _ _ _ 10 14 rfl rfl (by omega), by decide⟩

/-! ## C5: time defaults — `event_time_range` vs the column pass -/

/-- Counterexample to C5 as stated: in `calculate_event_columns` an
event with a missing end time is not treated as ending 60 minutes after
its start. With `e1 = (10:00, no end)` and `e2 = (11:30, 12:00)`, the
actual layout substitutes `23:59:59` for `e1`'s end, so `e2` cannot
reuse column 0 and is assigned column 1; under the claimed start+60
substitution `e1` would end at 11:00 and `e2` would reuse column 0. -/
theorem column_defaults_counterexample :
    (calculate_event_columns
        [⟨4, false, some (hms 10 0 0), none⟩,
          ⟨5, false, some (hms 11 30 0), some (hms 12 0 0)⟩]).map (fun p => p.column)
      = [0, 1] ∧
    (calculate_event_columns_stated
        [⟨4, false, some (hms 10 0 0), none⟩,
          ⟨5, false, some (hms 11 30 0), some (hms 12 0 0)⟩]).map (fun p => p.column)
      = [0, 0] := by
  constructor <;> decide

/-- C5 (amended): the start+60-minute default for a missing end time and
the 30-minute minimum-duration clamp belong to `event_time_range` (the
event's rendered time extent); the column-assignment pass instead
substitutes `00:00:00` for a missing start time and `23:59:59` for a
missing end time and applies no clamp. -/
theorem event_time_defaults (ev : DisplayEvent) (s e : Nat) :
    (ev.end_time = none →
      (event_time_range ev).2 = (event_time_range ev).1 + 60) ∧
    (ev.start_time = some s → ev.end_time = some e →
      minutesOfDay e ≤ minutesOfDay s →
      (event_time_range ev).1 = minutesOfDay s ∧
        (event_time_range ev).2 = minutesOfDay s + 30) ∧
    (ev.end_time = none → substEnd ev = hms 23 59 59) ∧
    (ev.start_time = none → substStart ev = hms 0 0 0) := by
  refine ⟨fun hn => ?_, fun hs he hle => ?_, fun hn => ?_, fun hn => ?_⟩
  · simp [event_time_range, hn]
  · simp [event_time_range, hs, he, hle]
  · simp [substEnd, hn]
  · simp [substStart, hn]

/-- Witness for C5 (amended) at concrete events: a missing end time
yields a 60-minute extent, an inverted pair is clamped to 30 minutes,
and the column-pass substitutions are whole-day bounds. -/
theorem event_time_defaults_witness :
    (event_time_range ⟨1, false, some (hms 9 0 0), none⟩).2
        = (event_time_range ⟨1, false, some (hms 9 0 0), none⟩).1 + 60 ∧
      (event_time_range ⟨2, false, some (hms 9 0 0), some (hms 8 0 0)⟩).2
        = minutesOfDay (hms 9 0 0) + 30 ∧
      substEnd ⟨1, false, some (hms 9 0 0), none⟩ = hms 23 59 59 ∧
      substStart ⟨3, false, none, some (hms 8 0 0)⟩ = hms 0 0 0 :=
  ⟨(event_time_defaults ⟨1, false, some (hms 9 0 0), none⟩ 0 0).1 rfl,
    ((event_time_defaults ⟨2, false, some (hms 9 0 0), some (hms 8 0 0)⟩
      (hms 9 0 0) (hms 8 0 0)).2.1 rfl rfl (by decide)).2,
    (event_time_defaults ⟨1, false, some (hms 9 0 0), none⟩ 0 0).2.2.1 rfl,
    (event_time_defaults ⟨3, false, none, some (hms 8 0 0)⟩ 0 0).2.2.2 rfl⟩

/-! ## C9: month-view week slot layout (modelled from the spec) -/

theorem dateRangesOverlap_comm (e f : DateEvent) :
    dateRangesOverlap e f = dateRangesOverlap f e := by
  unfold dateRangesOverlap
  rw [Bool.and_comm]

/-- C9: first-fit slot assignment by date-range overlap — two
non-overlapping events both receive slot 0, two overlapping events
receive slots 0 and 1, and `day_occupied_slots` of a day holds exactly
the slots of the events whose range covers that day. -/
theorem week_slots_spec (e1 e2 : DateEvent) (events : List DateEvent)
    (day : Int) (slot : Nat) :
    (dateRangesOverlap e1 e2 = false →
      (compute_week_event_slots [e1, e2]).slots = [(e1.key, 0), (e2.key, 0)]) ∧
    (dateRangesOverlap e1 e2 = true →
      (compute_week_event_slots [e1, e2]).slots = [(e1.key, 0), (e2.key, 1)]) ∧
    (slot ∈ (compute_week_event_slots events).day_occupied_slots day ↔
      ∃ e, (e, slot) ∈ assignSlots events [] ∧
        e.start_date ≤ day ∧ day ≤ e.end_date) := by
  refine ⟨fun hno => ?_, fun hyes => ?_, ?_⟩
  · simp [compute_week_event_slots, assignSlots, firstFreeSlot, slotFree,
      dateRangesOverlap_comm e2 e1, hno]
  · simp [compute_week_event_slots, assignSlots, firstFreeSlot, slotFree,
      dateRangesOverlap_comm e2 e1, hyes]
  · unfold compute_week_event_slots
    simp only [List.mem_map, List.mem_filter, Bool.and_eq_true, decide_eq_true_eq]
    constructor
    · rintro ⟨⟨e, sl⟩, ⟨hmem, hsd, hed⟩, hsl⟩
      subst hsl
      exact ⟨e, hmem, hsd, hed⟩
    · rintro ⟨e, hmem, hsd, hed⟩
      exact ⟨(e, slot), ⟨hmem, hsd, hed⟩, rfl⟩

/-- Witness for C9: a non-overlapping pair reuses slot 0, an overlapping
pair gets slots 0 and 1, and a concrete day's occupancy. -/
theorem week_slots_spec_witness :
    (compute_week_event_slots [⟨1, 0, 2⟩, ⟨2, 3, 5⟩]).slots = [(1, 0), (2, 0)] ∧
      (compute_week_event_slots [⟨1, 0, 2⟩, ⟨3, 1, 4⟩]).slots = [(1, 0), (3, 1)] ∧
      (0 : Nat) ∈ (compute_week_event_slots [⟨1, 0, 2⟩, ⟨2, 3, 5⟩]).day_occupied_slots 0 :=
  ⟨(week_slots_spec ⟨1, 0, 2⟩ ⟨2, 3, 5⟩ [] 0 0).1 (by decide),
    (week_slots_spec ⟨1, 0, 2⟩ ⟨3, 1, 4⟩ [] 0 0).2.1 (by decide),
    (week_slots_spec ⟨1, 0, 2⟩ ⟨2, 3, 5⟩ [⟨1, 0, 2⟩, ⟨2, 3, 5⟩] 0 0).2.2.mpr
      ⟨⟨1, 0, 2⟩, by decide, by decide, by decide⟩⟩

/-! ## Column-layout machinery: `getD` facts -/

theorem getD_oob (l : List Nat) (c : Nat) (h : l.length ≤ c) : l.getD c 0 = 0 := by
  induction l generalizing c with
  | nil => simp
  | cons x rest ih =>
      cases c with
      | zero => simp at h
      | succ c' =>
          rw [List.getD_cons_succ]
          exact ih c' (by simpa using h)

theorem getD_set_self (l : List Nat) (i : Nat) (a : Nat) (h : i < l.length) :
    (l.set i a).getD i 0 = a := by
  induction l generalizing i with
  | nil => simp at h
  | cons x rest ih =>
      cases i with
      | zero => simp
      | succ i' =>
          simp only [List.set_cons_succ, List.getD_cons_succ]
          exact ih i' (by simpa using h)

theorem getD_set_ne (l : List Nat) (i c : Nat) (a : Nat) (h : i ≠ c) :
    (l.set i a).getD c 0 = l.getD c 0 := by
  induction l generalizing i c with
  | nil => simp
  | cons x rest ih =>
      cases i with
      | zero =>
          cases c with
          | zero => exact absurd rfl h
          | succ c' => simp
      | succ i' =>
          cases c with
          | zero => simp
          | succ c' =>
              simp only [List.set_cons_succ, List.getD_cons_succ]
              exact ih i' c' (fun he => h (by rw [he]))

theorem getD_append_left (l : List Nat) (x : Nat) (c : Nat) (h : c < l.length) :
    (l ++ [x]).getD c 0 = l.getD c 0 := by
  induction l generalizing c with
  | nil => simp at h
  | cons y rest ih =>
      cases c with
      | zero => simp
      | succ c' =>
          simp only [List.cons_append, List.getD_cons_succ]
          exact ih c' (by simpa using h)

theorem getD_append_len (l : List Nat) (x : Nat) : (l ++ [x]).getD l.length 0 = x := by
  induction l with
  | nil => simp
  | cons y rest ih => simp [ih]

/-! ## Column-layout machinery: the first pass -/

theorem substStart_eq (ev : DisplayEvent) : substStart ev = optKey ev.start_time - 1 := by
  cases h : ev.start_time <;> simp [substStart, optKey, hms, h]

theorem evLeP_substStart {a b : DisplayEvent} (h : evLeP a b) :
    substStart a ≤ substStart b := by
  have h' := (evLe_iff a b).mp h
  rw [substStart_eq, substStart_eq]
  omega

theorem firstFreeCol_spec {s : Nat} : ∀ {ends : List Nat} {i : Nat},
    firstFreeCol s ends = some i → i < ends.length ∧ ends.getD i 0 ≤ s := by
  intro ends
  induction ends with
  | nil => intro i h; simp [firstFreeCol] at h
  | cons x rest ih =>
      intro i h
      unfold firstFreeCol at h
      by_cases hx : x ≤ s
      · rw [if_pos hx] at h
        cases h
        simp [hx]
      · rw [if_neg hx] at h
        cases hfc : firstFreeCol s rest with
        | none => rw [hfc] at h; simp at h
        | some k =>
            rw [hfc] at h
            simp at h
            rcases ih hfc with ⟨hk, hke⟩
            have hi : i = k + 1 := by omega
            subst hi
            exact ⟨by simpa using Nat.succ_lt_succ hk, by simpa using hke⟩

theorem placeEvents_mem : ∀ (l : List DisplayEvent) (ends : List Nat)
    (q : PositionedEvent), q ∈ placeEvents l ends → q.event ∈ l := by
  intro l
  induction l with
  | nil => intro ends q h; simp [placeEvents] at h
  | cons ev rest ih =>
      intro ends q hq
      unfold placeEvents at hq
      cases hfc : firstFreeCol (substStart ev) ends with
      | some i =>
          rw [hfc] at hq
          rcases List.mem_cons.mp hq with hq | hq
          · rw [hq]; exact List.mem_cons_self ev rest
          · exact List.mem_cons_of_mem ev (ih _ q hq)
      | none =>
          rw [hfc] at hq
          rcases List.mem_cons.mp hq with hq | hq
          · rw [hq]; exact List.mem_cons_self ev rest
          · exact List.mem_cons_of_mem ev (ih _ q hq)

theorem placeEvents_start_bound : ∀ (l : List DisplayEvent) (ends : List Nat)
    (q : PositionedEvent), List.Pairwise evLeP l → q ∈ placeEvents l ends →
    ends.getD q.column 0 ≤ substStart q.event := by
  intro l
  induction l with
  | nil => intro ends q _ h; simp [placeEvents] at h
  | cons ev rest ih =>
      intro ends q hs hq
      rcases List.pairwise_cons.mp hs with ⟨hhead, htail⟩
      unfold placeEvents at hq
      cases hfc : firstFreeCol (substStart ev) ends with
      | some i =>
          rw [hfc] at hq
          rcases firstFreeCol_spec hfc with ⟨hi, hile⟩
          rcases List.mem_cons.mp hq with hq | hq
          · rw [hq]
            exact hile
          · by_cases hci : q.column = i
            · have hmem := placeEvents_mem _ _ q hq
              have hmono := evLeP_substStart (hhead _ hmem)
              rw [hci]
              omega
            · have h2 := ih _ q htail hq
              rw [getD_set_ne ends i q.column _ (fun he => hci he.symm)] at h2
              exact h2
      | none =>
          rw [hfc] at hq
          rcases List.mem_cons.mp hq with hq | hq
          · rw [hq]
            simp [getD_oob ends ends.length (le_refl _)]
          · have h2 := ih _ q htail hq
            rcases Nat.lt_or_ge q.column ends.length with hlt | hge
            · rwa [getD_append_left ends _ q.column hlt] at h2
            · rw [getD_oob ends q.column hge]
              exact Nat.zero_le _

/-- Separation invariant of the first pass: two events placed in the
same column are separated — the earlier one's substituted end is at or
before the later one's substituted start. -/
theorem placeEvents_pairwise : ∀ (l : List DisplayEvent) (ends : List Nat),
    List.Pairwise evLeP l →
    List.Pairwise
      (fun p q => p.column = q.column → substEnd p.event ≤ substStart q.event)
      (placeEvents l ends) := by
  intro l
  induction l with
  | nil => intro ends _; simp [placeEvents]
  | cons ev rest ih =>
      intro ends hs
      rcases List.pairwise_cons.mp hs with ⟨_, htail⟩
      unfold placeEvents
      cases hfc : firstFreeCol (substStart ev) ends with
      | some i =>
          rcases firstFreeCol_spec hfc with ⟨hi, _⟩
          refine List.pairwise_cons.mpr ⟨?_, ih _ htail⟩
          intro q hq hcol
          have hb := placeEvents_start_bound _ _ q htail hq
          rw [← hcol] at hb
          rwa [getD_set_self ends i _ hi] at hb
      | none =>
          refine List.pairwise_cons.mpr ⟨?_, ih _ htail⟩
          intro q hq hcol
          have hb := placeEvents_start_bound _ _ q htail hq
          rw [← hcol] at hb
          rwa [getD_append_len ends _] at hb

theorem events_overlap_comm (e1 e2 : DisplayEvent) :
    events_overlap e1 e2 = events_overlap e2 e1 := by
  unfold events_overlap
  cases e1.start_time <;> cases e1.end_time <;>
    cases e2.start_time <;> cases e2.end_time <;> simp [Bool.and_comm]

theorem overlap_false_of_sep {p q : DisplayEvent}
    (h : substEnd p ≤ substStart q) : events_overlap p q = false := by
  unfold events_overlap
  cases hps : p.start_time <;> cases hpe : p.end_time <;>
    cases hqs : q.start_time <;> cases hqe : q.end_time <;> simp
  simp only [substEnd, substStart, hpe, hqs, Option.getD_some] at h
  omega

/-! ## Column-layout machinery: the second pass -/

theorem secondPass_length (base : List PositionedEvent) :
    ∀ (j : Nat) (l : List PositionedEvent), (secondPass base j l).length = l.length := by
  intro j l
  induction l generalizing j with
  | nil => simp [secondPass]
  | cons p rest ih => simp [secondPass, ih]

theorem secondPass_getElem (base : List PositionedEvent) :
    ∀ (j : Nat) (l : List PositionedEvent) (k : Nat) (hk : k < l.length)
      (hk2 : k < (secondPass base j l).length),
      (secondPass base j l)[k] =
        { l[k] with
          total_columns := overlapMaxAux (l[k]).event (j + k) 0 base (l[k]).column + 1 } := by
  intro j l
  induction l generalizing j with
  | nil => intro k hk _; simp at hk
  | cons p rest ih =>
      intro k hk hk2
      cases k with
      | zero => simp [secondPass]
      | succ k' =>
          have hk' : k' < rest.length := by simpa using hk
          have hk2' : k' < (secondPass base (j + 1) rest).length := by
            rw [secondPass_length]; exact hk'
          have hidx : j + 1 + k' = j + (k' + 1) := by omega
          have hstep : (secondPass base j (p :: rest))[k' + 1]
              = (secondPass base (j + 1) rest)[k'] := by
            simp [secondPass]
          rw [hstep, ih (j + 1) k' hk' hk2', List.getElem_cons_succ, ← hidx]

/-- List of output column/event data is pointwise that of the first
pass. -/
theorem calc_columns_shape (events : List DisplayEvent)
    (hne : events.isEmpty = false) :
    (calculate_event_columns events).length
        = (placeEvents (List.insertionSort evLeP events) []).length ∧
      ∀ (k : Nat) (hk : k < (calculate_event_columns events).length)
        (hk2 : k < (placeEvents (List.insertionSort evLeP events) []).length),
        (calculate_event_columns events)[k].event
            = (placeEvents (List.insertionSort evLeP events) [])[k].event ∧
          (calculate_event_columns events)[k].column
            = (placeEvents (List.insertionSort evLeP events) [])[k].column ∧
          (calculate_event_columns events)[k].total_columns
            = overlapMaxAux
                ((placeEvents (List.insertionSort evLeP events) [])[k].event) k 0
                (placeEvents (List.insertionSort evLeP events) [])
                ((placeEvents (List.insertionSort evLeP events) [])[k].column) + 1 := by
  have hcce : calculate_event_columns events
      = secondPass (placeEvents (List.insertionSort evLeP events) []) 0
          (placeEvents (List.insertionSort evLeP events) []) := by
    unfold calculate_event_columns
    rw [hne]
    simp
  constructor
  · rw [hcce, secondPass_length]
  · intro k hk hk2
    have hk0 : k < (secondPass (placeEvents (List.insertionSort evLeP events) []) 0
        (placeEvents (List.insertionSort evLeP events) [])).length := by
      rw [← hcce]; exact hk
    have hge := secondPass_getElem (placeEvents (List.insertionSort evLeP events) []) 0
      (placeEvents (List.insertionSort evLeP events) []) k hk2 hk0
    have h1 : (calculate_event_columns events)[k]
        = (secondPass (placeEvents (List.insertionSort evLeP events) []) 0
            (placeEvents (List.insertionSort evLeP events) []))[k] :=
      List.getElem_of_eq hcce hk
    rw [h1, hge]
    exact ⟨rfl, rfl, by simp⟩

/-! ## C2: events in the same column never overlap -/

/-- C2: `calculate_event_columns` sorts by `(start_time, end_time)` and
assigns columns first-fit; consequently two distinct output events
assigned the same column index never overlap under the open-interval
overlap test. -/
theorem calc_columns_no_overlap (events : List DisplayEvent) (i j : Nat)
    (hi : i < (calculate_event_columns events).length)
    (hj : j < (calculate_event_columns events).length) (hij : i ≠ j)
    (hcol : (calculate_event_columns events)[i].column
      = (calculate_event_columns events)[j].column) :
    events_overlap (calculate_event_columns events)[i].event
      (calculate_event_columns events)[j].event = false := by
  cases hne : events.isEmpty with
  | true =>
      exfalso
      unfold calculate_event_columns at hi
      rw [hne] at hi
      simp at hi
  | false =>
      rcases calc_columns_shape events hne with ⟨hlen, hpt⟩
      have hi' : i < (placeEvents (List.insertionSort evLeP events) []).length := by
        rw [← hlen]; exact hi
      have hj' : j < (placeEvents (List.insertionSort evLeP events) []).length := by
        rw [← hlen]; exact hj
      rcases hpt i hi hi' with ⟨hie, hic, _⟩
      rcases hpt j hj hj' with ⟨hje, hjc, _⟩
      rw [hie, hje]
      have hpw := placeEvents_pairwise (List.insertionSort evLeP events) []
        (List.sorted_insertionSort evLeP events)
      have hcol' : (placeEvents (List.insertionSort evLeP events) [])[i].column
          = (placeEvents (List.insertionSort evLeP events) [])[j].column := by
        rw [← hic, ← hjc]; exact hcol
      rcases Nat.lt_or_ge i j with hlt | hge
      · have hsep := (List.pairwise_iff_getElem.mp hpw) i j hi' hj' hlt hcol'
        exact overlap_false_of_sep hsep
      · have hlt' : j < i := by omega
        have hsep := (List.pairwise_iff_getElem.mp hpw) j i hj' hi' hlt' hcol'.symm
        rw [events_overlap_comm]
        exact overlap_false_of_sep hsep

/-- Witness for C2: the spec's example — an event starting exactly when
another ends reuses its column, and the two do not overlap. -/
theorem calc_columns_no_overlap_witness :
    events_overlap
        ((calculate_event_columns
            [⟨1, false, some (hms 9 0 0), some (hms 10 0 0)⟩,
              ⟨2, false, some (hms 9 30 0), some (hms 10 30 0)⟩,
              ⟨3, false, some (hms 10 0 0), some (hms 11 0 0)⟩]).get ⟨0, by decide⟩).event
        ((calculate_event_columns
            [⟨1, false, some (hms 9 0 0), some (hms 10 0 0)⟩,
              ⟨2, false, some (hms 9 30 0), some (hms 10 30 0)⟩,
              ⟨3, false, some (hms 10 0 0), some (hms 11 0 0)⟩]).get ⟨2, by decide⟩).event
      = false :=
  calc_columns_no_overlap
    [⟨1, false, some (hms 9 0 0), some (hms 10 0 0)⟩,
      ⟨2, false, some (hms 9 30 0), some (hms 10 30 0)⟩,
      ⟨3, false, some (hms 10 0 0), some (hms 11 0 0)⟩]
    0 2 (by decide) (by decide) (by decide) (by decide)

/-! ## C3: the `total_columns` second pass -/

theorem overlapMaxAux_eq_foldl (pe : DisplayEvent) (i : Nat) :
    ∀ (l : List PositionedEvent) (j acc : Nat),
      overlapMaxAux pe i j l acc =
        (((l.enumFrom j).filter fun jq =>
            decide (i ≠ jq.1 ∧ events_overlap pe jq.2.event = true)).map
          fun jq => jq.2.column).foldl max acc := by
  intro l
  induction l with
  | nil => intro j acc; simp [overlapMaxAux]
  | cons q rest ih =>
      intro j acc
      unfold overlapMaxAux
      rw [ih, List.enumFrom_cons, List.filter_cons]
      by_cases hc : i ≠ j ∧ events_overlap pe q.event = true
      · rw [if_pos hc, if_pos (by simpa using hc)]
        simp [List.foldl_cons]
      · rw [if_neg hc, if_neg (by simpa using hc)]

theorem overlapMaxAux_congr (pe : DisplayEvent) (i : Nat) :
    ∀ (l1 l2 : List PositionedEvent) (j acc : Nat),
      l1.length = l2.length →
      (∀ (k : Nat) (hk1 : k < l1.length) (hk2 : k < l2.length),
        (l1[k]).event = (l2[k]).event ∧ (l1[k]).column = (l2[k]).column) →
      overlapMaxAux pe i j l1 acc = overlapMaxAux pe i j l2 acc := by
  intro l1
  induction l1 with
  | nil =>
      intro l2 j acc hlen _
      cases l2 with
      | nil => rfl
      | cons q rest2 => simp at hlen
  | cons p rest ih =>
      intro l2 j acc hlen hpt
      cases l2 with
      | nil => simp at hlen
      | cons q rest2 =>
          rcases hpt 0 (by simp) (by simp) with ⟨he, hc⟩
          simp only [List.getElem_cons_zero] at he hc
          unfold overlapMaxAux
          rw [he, hc]
          refine ih rest2 (j + 1) _ (by simpa using hlen) ?_
          intro k hk1 hk2
          have := hpt (k + 1) (by simpa using Nat.succ_lt_succ hk1)
            (by simpa using Nat.succ_lt_succ hk2)
          simpa using this

/-- C3: every output event's `total_columns` is one more than the
maximum of its own column and the column of every other output event it
time-overlaps with. -/
theorem calc_columns_total (events : List DisplayEvent) (i : Nat)
    (hi : i < (calculate_event_columns events).length) :
    (calculate_event_columns events)[i].total_columns =
      1 + ((((calculate_event_columns events).enum.filter fun jq =>
              decide (i ≠ jq.1 ∧
                events_overlap (calculate_event_columns events)[i].event jq.2.event
                  = true)).map fun jq => jq.2.column).foldl max
            (calculate_event_columns events)[i].column) := by
  cases hne : events.isEmpty with
  | true =>
      exfalso
      unfold calculate_event_columns at hi
      rw [hne] at hi
      simp at hi
  | false =>
      rcases calc_columns_shape events hne with ⟨hlen, hpt⟩
      have hi' : i < (placeEvents (List.insertionSort evLeP events) []).length := by
        rw [← hlen]; exact hi
      rcases hpt i hi hi' with ⟨hie, hic, hit⟩
      rw [hit, hic, hie]
      have hcong := overlapMaxAux_congr
        ((placeEvents (List.insertionSort evLeP events) [])[i].event) i
        (placeEvents (List.insertionSort evLeP events) [])
        (calculate_event_columns events) 0
        ((placeEvents (List.insertionSort evLeP events) [])[i].column)
        (by rw [hlen])
        (by
          intro k hk1 hk2
          rcases hpt k hk2 hk1 with ⟨he, hc, _⟩
          exact ⟨he.symm, hc.symm⟩)
      rw [hcong, overlapMaxAux_eq_foldl]
      have henum : (calculate_event_columns events).enum
          = (calculate_event_columns events).enumFrom 0 := rfl
      rw [henum, Nat.add_comm]

/-- Witness for C3 on the spec's three-event example: the event in
column 1 overlaps both column-0 events, so its `total_columns` is 2. -/
theorem calc_columns_total_witness :
    ((calculate_event_columns
        [⟨1, false, some (hms 9 0 0), some (hms 10 0 0)⟩,
          ⟨2, false, some (hms 9 30 0), some (hms 10 30 0)⟩,
          ⟨3, false, some (hms 10 0 0), some (hms 11 0 0)⟩]).get ⟨1, by decide⟩).total_columns
      = 2 :=
  Eq.trans
    (calc_columns_total
      [⟨1, false, some (hms 9 0 0), some (hms 10 0 0)⟩,
        ⟨2, false, some (hms 9 30 0), some (hms 10 30 0)⟩,
        ⟨3, false, some (hms 10 0 0), some (hms 11 0 0)⟩]
      1 (by decide))
    (by decide)

/-! ## C10: overlap requires all four time fields -/

theorem events_overlap_left_end_none {pe : DisplayEvent} (h : pe.end_time = none)
    (x : DisplayEvent) : events_overlap pe x = false := by
  unfold events_overlap
  cases pe.start_time <;> rw [h]

theorem overlapMaxAux_of_end_none {pe : DisplayEvent} (h : pe.end_time = none) :
    ∀ (l : List PositionedEvent) (i j acc : Nat), overlapMaxAux pe i j l acc = acc := by
  intro l
  induction l with
  | nil => intro i j acc; rfl
  | cons q rest ih =>
      intro i j acc
      unfold overlapMaxAux
      rw [events_overlap_left_end_none h q.event]
      rw [if_neg (by simp)]
      exact ih i (j + 1) acc

/-- C10: `events_overlap` is false whenever any of the four time fields
is missing; consequently an event with no end time overlaps nothing in
the second pass and its `total_columns` is its own column plus one, even
though the column-assignment pass gave it a substitute end time. -/
theorem events_overlap_requires_times (e1 e2 : DisplayEvent)
    (events : List DisplayEvent) (i : Nat)
    (hi : i < (calculate_event_columns events).length) :
    (e1.start_time = none ∨ e1.end_time = none ∨ e2.start_time = none ∨
        e2.end_time = none →
      events_overlap e1 e2 = false) ∧
    ((calculate_event_columns events)[i].event.end_time = none →
      (calculate_event_columns events)[i].total_columns
        = (calculate_event_columns events)[i].column + 1) := by
  constructor
  · intro h
    unfold events_overlap
    rcases h with h | h | h | h <;> rw [h] <;>
      cases e1.start_time <;> cases e1.end_time <;>
      cases e2.start_time <;> cases e2.end_time <;> rfl
  · intro hnone
    cases hne : events.isEmpty with
    | true =>
        exfalso
        unfold calculate_event_columns at hi
        rw [hne] at hi
        simp at hi
    | false =>
        rcases calc_columns_shape events hne with ⟨hlen, hpt⟩
        have hi' : i < (placeEvents (List.insertionSort evLeP events) []).length := by
          rw [← hlen]; exact hi
        rcases hpt i hi hi' with ⟨hie, hic, hit⟩
        rw [hit, hic]
        rw [hie] at hnone
        rw [overlapMaxAux_of_end_none hnone]

/-- Witness for C10: an event whose end time is missing overlaps
nothing, and alone in a layout its `total_columns` is 1 while its column
is 0. -/
theorem events_overlap_requires_times_witness :
    events_overlap ⟨4, false, some (hms 10 0 0), none⟩
        ⟨5, false, some (hms 10 0 0), some (hms 12 0 0)⟩ = false ∧
      ((calculate_event_columns [⟨4, false, some (hms 10 0 0), none⟩]).get
          ⟨0, by decide⟩).total_columns
        = ((calculate_event_columns [⟨4, false, some (hms 10 0 0), none⟩]).get
            ⟨0, by decide⟩).column + 1 :=
  ⟨(events_overlap_requires_times ⟨4, false, some (hms 10 0 0), none⟩
      ⟨5, false, some (hms 10 0 0), some (hms 12 0 0)⟩
      [⟨4, false, some (hms 10 0 0), none⟩] 0 (by decide)).1 (Or.inr (Or.inl rfl)),
    (events_overlap_requires_times ⟨4, false, some (hms 10 0 0), none⟩
      ⟨5, false, some (hms 10 0 0), some (hms 12 0 0)⟩
      [⟨4, false, some (hms 10 0 0), none⟩] 0 (by decide)).2 rfl⟩

end Calendar
